import Mathlib

/-
Shallow embedding of `twisted._threads._team` (the `Team` worker pool).

The coordinator ("exclusive worker") serializes all closures that mutate the
pool state, so the pool is modelled as a deterministic state machine whose
steps are exactly the coordinator-serialized closures of the source:

  * `Team.createOneWorker`   — the loop submitted by `Team.grow`;
  * `Team.quitIdlers`        — the closure submitted by `Team.shrink`;
  * `Team.coordinateThisTask`— the closure submitted by `Team.do`;
  * `Team.idleAndPending`    — the completion bookkeeping a worker submits
                               back after running a task;
  * `Team.startFinishing`    — the closure submitted by `Team.quit`.

Workers are identified by natural numbers handed out by a counter (`nextId`),
tasks by the order of their submission (`doCount`).  The Python `set` of idle
workers is represented by a duplicate-free `List Nat` (`set.add` becomes
`List.insert`, the arbitrary `set.pop` is resolved to popping the head).
The worker factory is a parameter `fac : Nat → Bool` telling whether its
`i`-th call (counted by `facCalls`) returns a worker (`true`) or `None`.

Ghost instrumentation (fields the Python object does not store, recording
externally observable events): `busy` (ids of dispatched, not yet completed
workers), `workerQuits` (one event per `worker.quit()` call, recording the
membership of the worker in the idle list and busy list at the call site),
`handed` (task ids in the order they were handed to some worker via `do`),
`coordinatorQuit` (whether `quit()` of the exclusive worker was called),
`doCount` (tasks submitted through `Team.do`), `facCalls` and `nextId`.
-/

/-- Modelled from the spec: the `AlreadyQuit` error of
`twisted._threads._convenience` (that module is not under `src/`);
raised by `check` of the quit guard once the guard is set. -/
inductive AlreadyQuit where
  | mk
deriving DecidableEq

/-- Modelled from the spec: the `Quit` guard of
`twisted._threads._convenience` (not under `src/`): a boolean flag, starting
unset; `check` fails with `AlreadyQuit` once set; `set` sets it. -/
structure Quit where
  isSet : Bool
deriving DecidableEq

/-- Modelled from the spec: `Quit.check` fails with `AlreadyQuit` if the flag
is already set, otherwise does nothing. -/
def Quit.check (q : Quit) : Except AlreadyQuit Unit :=
  if q.isSet then Except.error AlreadyQuit.mk else Except.ok ()

/-- Modelled from the spec: `Quit.set` marks the guard as quit (idempotent,
never fails). -/
def Quit.set (q : Quit) : Quit :=
  { q with isSet := true }

/-- `Statistics`: snapshot of the current activity of a `Team`. -/
structure Statistics where
  idleWorkerCount : Nat
  busyWorkerCount : Nat
  backloggedWorkCount : Nat
deriving DecidableEq

/-- One `worker.quit()` call, with the membership of the worker in the idle list
(just before its removal) and in the busy list, both read off at the call
site. -/
structure QuitEvent where
  worker : Nat
  wasIdle : Bool
  wasBusy : Bool
deriving DecidableEq

/-- The state of a `Team`: the five fields of the Python object
(`_idle`, `_busyCount`, `_pending`, `_shouldQuitCoordinator`, `_toShrink`),
its quit guard `_quit`, and the ghost instrumentation described above. -/
structure TeamState where
  idle : List Nat
  busyCount : Nat
  pending : List Nat
  shouldQuitCoordinator : Bool
  toShrink : Nat
  quit : Quit
  busy : List Nat
  workerQuits : List QuitEvent
  handed : List Nat
  coordinatorQuit : Bool
  facCalls : Nat
  nextId : Nat
  doCount : Nat
deriving DecidableEq

namespace Team

/-- The state of a freshly constructed `Team`. -/
def initialState : TeamState :=
  { idle := [], busyCount := 0, pending := [], shouldQuitCoordinator := false,
    toShrink := 0, quit := { isSet := false }, busy := [], workerQuits := [],
    handed := [], coordinatorQuit := false, facCalls := 0, nextId := 0,
    doCount := 0 }

/-- `Team.statistics`: snapshot of idle, busy and backlogged counts. -/
def statistics (s : TeamState) : Statistics :=
  { idleWorkerCount := s.idle.length, busyWorkerCount := s.busyCount,
    backloggedWorkCount := s.pending.length }

/-- The loop body of `Team._quitIdlers`: `for x in range(n): if self._idle:
self._idle.pop().quit() else: self._toShrink += 1`.  Each `worker.quit()`
appends a `QuitEvent` recording the call. -/
def quitLoop : Nat → TeamState → TeamState
  | 0, s => s
  | n + 1, s =>
    match s.idle with
    | w :: rest =>
      quitLoop n
        { s with
          idle := rest
          workerQuits := s.workerQuits ++
            [{ worker := w, wasIdle := (w :: rest).contains w,
               wasBusy := s.busy.contains w }] }
    | [] => quitLoop n { s with toShrink := s.toShrink + 1 }

/-- `Team._quitIdlers(n)`: default `n` to `len(idle) + busyCount`, run the
loop, then quit the coordinator if `shouldQuitCoordinator` holds and no
worker is busy. -/
def quitIdlers (nOpt : Option Nat) (s : TeamState) : TeamState :=
  let n := match nOpt with
    | some m => m
    | none => s.idle.length + s.busyCount
  let s1 := quitLoop n s
  if s1.shouldQuitCoordinator && s1.busyCount == 0 then
    { s1 with coordinatorQuit := true }
  else s1

/-- The hand-off at the end of `Team._coordinateThisTask`:
`self._busyCount += 1; worker.do(doWork)`.  Ghost bookkeeping: `w` joins the
busy list and `task` is logged as handed to a worker. -/
def dispatchTo (w : Nat) (task : Nat) (s : TeamState) : TeamState :=
  { s with
    busyCount := s.busyCount + 1
    busy := s.busy ++ [w]
    handed := s.handed ++ [task] }

/-- `Team._coordinateThisTask(task)`: `worker = self._idle.pop() if
self._idle else self._createWorker()`; if no worker, append `task` to
`pending`; otherwise dispatch `task` to the worker. -/
def coordinateThisTask (fac : Nat → Bool) (task : Nat) (s : TeamState) :
    TeamState :=
  match s.idle with
  | w :: rest => dispatchTo w task { s with idle := rest }
  | [] =>
    if fac s.facCalls then
      dispatchTo s.nextId task
        { s with facCalls := s.facCalls + 1, nextId := s.nextId + 1 }
    else
      { s with facCalls := s.facCalls + 1, pending := s.pending ++ [task] }

/-- `Team._recycleWorker(worker)`: add `worker` to `idle`; then (1) if
`pending` is non-empty, pop its head and re-run `coordinateThisTask` on it
(explicitly not honoring `_quit`); (2) elif `shouldQuitCoordinator`, run
`quitIdlers()`; (3) elif `toShrink > 0`, decrement it, remove `worker` from
`idle` and call `worker.quit()`. -/
def recycleWorker (fac : Nat → Bool) (w : Nat) (s : TeamState) : TeamState :=
  let s0 := { s with idle := s.idle.insert w }
  match s0.pending with
  | t :: rest => coordinateThisTask fac t { s0 with pending := rest }
  | [] =>
    if s0.shouldQuitCoordinator then
      quitIdlers none s0
    else if 0 < s0.toShrink then
      { s0 with
        toShrink := s0.toShrink - 1
        idle := s0.idle.erase w
        workerQuits := s0.workerQuits ++
          [{ worker := w, wasIdle := s0.idle.contains w,
             wasBusy := s0.busy.contains w }] }
    else s0

/-- The closure submitted by `Team.grow(n)`: `for x in range(n): worker =
self._createWorker(); if worker is None: return; self._recycleWorker(worker)`.
A successful factory call yields the fresh worker id `nextId`. -/
def createOneWorker (fac : Nat → Bool) : Nat → TeamState → TeamState
  | 0, s => s
  | n + 1, s =>
    if fac s.facCalls then
      createOneWorker fac n
        (recycleWorker fac s.nextId
          { s with facCalls := s.facCalls + 1, nextId := s.nextId + 1 })
    else { s with facCalls := s.facCalls + 1 }

/-- The closure a worker submits back to the coordinator when its task is
done (`idleAndPending` inside `Team._coordinateThisTask.doWork`):
`self._busyCount -= 1; self._recycleWorker(not_none_worker)`. -/
def idleAndPending (fac : Nat → Bool) (w : Nat) (s : TeamState) : TeamState :=
  recycleWorker fac w
    { s with busyCount := s.busyCount - 1, busy := s.busy.erase w }

/-- The closure submitted by `Team.quit`:
`self._shouldQuitCoordinator = True; self._quitIdlers()`. -/
def startFinishing (s : TeamState) : TeamState :=
  quitIdlers none { s with shouldQuitCoordinator := true }

/-- `Team.grow(n)`: `self._quit.check()` and then submit `createOneWorker`.
On `AlreadyQuit` the error goes to the caller and nothing is submitted. -/
def grow (fac : Nat → Bool) (n : Nat) (s : TeamState) :
    Option AlreadyQuit × TeamState :=
  match Quit.check s.quit with
  | Except.error e => (some e, s)
  | Except.ok _ => (none, createOneWorker fac n s)

/-- `Team.shrink(n)`: `self._quit.check()` and then submit
`lambda: self._quitIdlers(n)`. -/
def shrink (nOpt : Option Nat) (s : TeamState) :
    Option AlreadyQuit × TeamState :=
  match Quit.check s.quit with
  | Except.error e => (some e, s)
  | Except.ok _ => (none, quitIdlers nOpt s)

/-- `Team.do(task)` (`do` is a Lean keyword, hence `doTask`):
`self._quit.check()` and then submit
`lambda: self._coordinateThisTask(task)`.  The submitted task receives the
next task id `doCount`. -/
def doTask (fac : Nat → Bool) (s : TeamState) :
    Option AlreadyQuit × TeamState :=
  match Quit.check s.quit with
  | Except.error e => (some e, s)
  | Except.ok _ =>
    (none, coordinateThisTask fac s.doCount { s with doCount := s.doCount + 1 })

/-- `Team.quit`: `self._quit.set()` (synchronously, in the caller) and then
submit `startFinishing`. -/
def quitTeam (s : TeamState) : TeamState :=
  startFinishing { s with quit := Quit.set s.quit }

/-- What `doWork` (the continuation wrapped around a task in
`Team._coordinateThisTask`) did: how many times `self._logException()` ran,
and whether the `idleAndPending` bookkeeping closure was submitted back to
the coordinator. -/
structure DoWorkRun where
  logExceptionCalls : Nat
  idleAndPendingSubmitted : Bool
deriving DecidableEq

/-- `doWork` from `Team._coordinateThisTask`: `try: task() except
BaseException: self._logException()`, then submit `idleAndPending` to the
coordinator.  A task is a thunk returning in `Except E`, `try/except
BaseException` is `Except.tryCatch`; an uncaught exception would surface as
`Except.error`. -/
def doWork {E : Type} (task : Unit → Except E Unit) : Except E DoWorkRun := do
  let logs : Nat ← Except.tryCatch
    (do
      let _ ← task ()
      pure 0)
    (fun _ => pure 1)
  pure { logExceptionCalls := logs, idleAndPendingSubmitted := true }

/-- The coordinator-serialized operations: each constructor is one closure
run by the exclusive worker. -/
inductive Op where
  | growC (n : Nat)
  | shrinkC (nOpt : Option Nat)
  | doC
  | completeC (w : Nat)
  | quitC
deriving DecidableEq

/-- Run one coordinator-serialized operation. -/
def applyOp (fac : Nat → Bool) : Op → TeamState → TeamState
  | Op.growC n, s => createOneWorker fac n s
  | Op.shrinkC nOpt, s => quitIdlers nOpt s
  | Op.doC, s =>
    coordinateThisTask fac s.doCount { s with doCount := s.doCount + 1 }
  | Op.completeC w, s => idleAndPending fac w s
  | Op.quitC, s => startFinishing { s with quit := Quit.set s.quit }

/-- When an operation can occur: a completion can only come from a worker
that is actually busy with a task; every other closure can be submitted at
any time. -/
def enabledOp : Op → TeamState → Prop
  | Op.completeC w, s => w ∈ s.busy
  | _, _ => True

/-- The states the coordinator can reach from the initial state by running
coordinator-serialized operations. -/
inductive Reachable (fac : Nat → Bool) : TeamState → Prop
  | init : Reachable fac initialState
  | step {s : TeamState} (op : Op) (h : Reachable fac s)
      (he : enabledOp op s) : Reachable fac (applyOp fac op s)

/-! ### Basic lemmas about the coordinator operations -/

/-- Total number of workers accounted for: idle, busy, or already quit. -/
def accounted (s : TeamState) : Nat :=
  s.idle.length + s.busy.length + s.workerQuits.length

/-- Total number of tasks accounted for: still pending, or already handed to
a worker. -/
def taskAccounted (s : TeamState) : Nat :=
  s.pending.length + s.handed.length

theorem quitLoop_fields (n : Nat) : ∀ s : TeamState,
    (quitLoop n s).busyCount = s.busyCount ∧
    (quitLoop n s).busy = s.busy ∧
    (quitLoop n s).pending = s.pending ∧
    (quitLoop n s).handed = s.handed ∧
    (quitLoop n s).doCount = s.doCount ∧
    (quitLoop n s).shouldQuitCoordinator = s.shouldQuitCoordinator ∧
    (quitLoop n s).coordinatorQuit = s.coordinatorQuit ∧
    (quitLoop n s).facCalls = s.facCalls ∧
    (quitLoop n s).nextId = s.nextId ∧
    (quitLoop n s).quit = s.quit := by
  induction n with
  | zero => intro s; simp [quitLoop]
  | succ n ih =>
    intro s
    cases h : s.idle with
    | nil => simpa [quitLoop, h] using ih _
    | cons w rest => simpa [quitLoop, h] using ih _

theorem quitLoop_accounted (n : Nat) : ∀ s : TeamState,
    accounted (quitLoop n s) = accounted s := by
  induction n with
  | zero => intro s; simp [quitLoop]
  | succ n ih =>
    intro s
    cases h : s.idle with
    | nil =>
      have := ih { s with idle := [], toShrink := s.toShrink + 1 }
      simp [quitLoop, h, accounted] at this ⊢
      omega
    | cons w rest =>
      have := ih { s with
        idle := rest
        workerQuits := s.workerQuits ++
          [{ worker := w, wasIdle := (w :: rest).contains w,
             wasBusy := s.busy.contains w }] }
      simp [quitLoop, h, accounted] at this ⊢
      omega

/-- Structural well-formedness of a coordinator state: `busyCount` mirrors
the busy list, idle and busy lists are duplicate-free and disjoint, all
worker ids were produced by the factory counter, and every recorded
`worker.quit()` call found its worker idle and not busy. -/
structure WInv (s : TeamState) : Prop where
  busy_count : s.busyCount = s.busy.length
  idle_nodup : s.idle.Nodup
  busy_nodup : s.busy.Nodup
  idle_busy_disj : ∀ w ∈ s.idle, w ∉ s.busy
  idle_lt : ∀ w ∈ s.idle, w < s.nextId
  busy_lt : ∀ w ∈ s.busy, w < s.nextId
  quits_ok : ∀ e ∈ s.workerQuits, e.wasIdle = true ∧ e.wasBusy = false

theorem quitLoop_winv (n : Nat) : ∀ s : TeamState, WInv s →
    WInv (quitLoop n s) := by
  induction n with
  | zero => intro s hs; simpa [quitLoop] using hs
  | succ n ih =>
    intro s hs
    cases h : s.idle with
    | nil =>
      rw [quitLoop, h]
      refine ih _ ⟨hs.busy_count, by simp, hs.busy_nodup, by simp, by simp,
        hs.busy_lt, hs.quits_ok⟩
    | cons w rest =>
      rw [quitLoop, h]
      have hw : w ∈ s.idle := by rw [h]; exact List.mem_cons_self w rest
      refine ih _ ⟨hs.busy_count, (List.nodup_cons.mp (h ▸ hs.idle_nodup)).2,
        hs.busy_nodup,
        fun x hx => hs.idle_busy_disj x (h ▸ List.mem_cons_of_mem w hx),
        fun x hx => hs.idle_lt x (h ▸ List.mem_cons_of_mem w hx),
        hs.busy_lt, ?_⟩
      intro e he
      simp only [List.mem_append, List.mem_singleton] at he
      rcases he with he | he
      · exact hs.quits_ok e he
      · subst he
        refine ⟨by simp, by simpa using hs.idle_busy_disj w hw⟩

/-- The worker count targeted by `Team._quitIdlers`: the explicit `n`, or
`len(self._idle) + self._busyCount` when `n is None`. -/
def quitCount (nOpt : Option Nat) (s : TeamState) : Nat :=
  match nOpt with
  | some m => m
  | none => s.idle.length + s.busyCount

theorem quitIdlers_eq (nOpt : Option Nat) (s : TeamState) :
    quitIdlers nOpt s =
      { quitLoop (quitCount nOpt s) s with
        coordinatorQuit :=
          ((quitLoop (quitCount nOpt s) s).shouldQuitCoordinator &&
            (quitLoop (quitCount nOpt s) s).busyCount == 0) ||
          (quitLoop (quitCount nOpt s) s).coordinatorQuit } := by
  have h : ∀ s1 : TeamState,
      (if s1.shouldQuitCoordinator && s1.busyCount == 0 then
        { s1 with coordinatorQuit := true }
      else s1) =
      { s1 with coordinatorQuit :=
          (s1.shouldQuitCoordinator && s1.busyCount == 0) ||
            s1.coordinatorQuit } := by
    intro s1
    by_cases hc : (s1.shouldQuitCoordinator && s1.busyCount == 0) = true
    · simp [hc]
    · simp only [Bool.not_eq_true] at hc
      simp [hc]
  exact h (quitLoop (quitCount nOpt s) s)

theorem quitIdlers_fields (nOpt : Option Nat) (s : TeamState) :
    (quitIdlers nOpt s).busyCount = s.busyCount ∧
    (quitIdlers nOpt s).busy = s.busy ∧
    (quitIdlers nOpt s).pending = s.pending ∧
    (quitIdlers nOpt s).handed = s.handed ∧
    (quitIdlers nOpt s).doCount = s.doCount ∧
    (quitIdlers nOpt s).shouldQuitCoordinator = s.shouldQuitCoordinator ∧
    (quitIdlers nOpt s).facCalls = s.facCalls ∧
    (quitIdlers nOpt s).nextId = s.nextId ∧
    (quitIdlers nOpt s).quit = s.quit := by
  have h := quitLoop_fields (quitCount nOpt s) s
  rw [quitIdlers_eq]
  simp only []
  tauto

theorem quitIdlers_accounted (nOpt : Option Nat) (s : TeamState) :
    accounted (quitIdlers nOpt s) = accounted s := by
  have h := quitLoop_accounted (quitCount nOpt s) s
  rw [quitIdlers_eq]
  simpa [accounted] using h

theorem quitIdlers_winv (nOpt : Option Nat) (s : TeamState) (hs : WInv s) :
    WInv (quitIdlers nOpt s) := by
  have h := quitLoop_winv (quitCount nOpt s) s hs
  rw [quitIdlers_eq]
  exact ⟨h.busy_count, h.idle_nodup, h.busy_nodup, h.idle_busy_disj,
    h.idle_lt, h.busy_lt, h.quits_ok⟩

theorem dispatchTo_winv (w t : Nat) (s : TeamState) (hs : WInv s)
    (hw : w ∉ s.busy) (hlt : w < s.nextId) (hd : ∀ x ∈ s.idle, x ≠ w) :
    WInv (dispatchTo w t s) := by
  refine ⟨?_, hs.idle_nodup, ?_, ?_, hs.idle_lt, ?_, hs.quits_ok⟩
  · simp [dispatchTo, hs.busy_count]
  · simp [dispatchTo, List.nodup_append, hs.busy_nodup, List.disjoint_singleton]
    exact hw
  · intro x hx
    simp only [dispatchTo, List.mem_append, List.mem_singleton]
    push_neg
    exact ⟨hs.idle_busy_disj x hx, hd x hx⟩
  · intro x hx
    simp only [dispatchTo, List.mem_append, List.mem_singleton] at hx
    rcases hx with hx | hx
    · exact hs.busy_lt x hx
    · simpa [hx] using hlt

theorem dispatchTo_fields (w t : Nat) (s : TeamState) :
    accounted (dispatchTo w t s) = accounted s + 1 ∧
    taskAccounted (dispatchTo w t s) = taskAccounted s + 1 ∧
    (dispatchTo w t s).doCount = s.doCount ∧
    (dispatchTo w t s).nextId = s.nextId ∧
    (dispatchTo w t s).pending = s.pending ∧
    (dispatchTo w t s).handed = s.handed ++ [t] := by
  simp [dispatchTo, accounted, taskAccounted]
  omega

theorem coordinateThisTask_inv (fac : Nat → Bool) (t : Nat) (s : TeamState)
    (hs : WInv s) (hc : accounted s = s.nextId) :
    WInv (coordinateThisTask fac t s) ∧
    accounted (coordinateThisTask fac t s) =
      (coordinateThisTask fac t s).nextId ∧
    taskAccounted (coordinateThisTask fac t s) = taskAccounted s + 1 ∧
    (coordinateThisTask fac t s).doCount = s.doCount := by
  cases h : s.idle with
  | cons w rest =>
    have hw : w ∈ s.idle := by rw [h]; exact List.mem_cons_self w rest
    have hnd := h ▸ hs.idle_nodup
    have heq : coordinateThisTask fac t s = dispatchTo w t { s with idle := rest } := by
      rw [coordinateThisTask, h]
    rw [heq]
    have hs1w : WInv { s with idle := rest } :=
      ⟨hs.busy_count, (List.nodup_cons.mp hnd).2, hs.busy_nodup,
        fun x hx => hs.idle_busy_disj x (h ▸ List.mem_cons_of_mem w hx),
        fun x hx => hs.idle_lt x (h ▸ List.mem_cons_of_mem w hx),
        hs.busy_lt, hs.quits_ok⟩
    have hdinv := dispatchTo_winv w t { s with idle := rest } hs1w
      (hs.idle_busy_disj w hw) (hs.idle_lt w hw)
      (fun x hx => by
        intro hxw
        exact (List.nodup_cons.mp hnd).1 (hxw ▸ hx))
    obtain ⟨hdf1, hdf2, hdf3, hdf4, -, -⟩ :=
      dispatchTo_fields w t { s with idle := rest }
    have ha : accounted s = accounted { s with idle := rest } + 1 := by
      simp only [accounted, h]
      simp only [List.length_cons]
      omega
    have ht : taskAccounted { s with idle := rest } = taskAccounted s := rfl
    have hn : TeamState.nextId { s with idle := rest } = s.nextId := rfl
    have hdc : TeamState.doCount { s with idle := rest } = s.doCount := rfl
    exact ⟨hdinv, by omega, by omega, by omega⟩
  | nil =>
    by_cases hf : fac s.facCalls = true
    · have heq : coordinateThisTask fac t s =
          dispatchTo s.nextId t
            { s with facCalls := s.facCalls + 1, nextId := s.nextId + 1 } := by
        rw [coordinateThisTask, h, if_pos hf]
      rw [heq]
      have hs1w : WInv { s with facCalls := s.facCalls + 1, nextId := s.nextId + 1 } :=
        ⟨hs.busy_count, hs.idle_nodup, hs.busy_nodup, hs.idle_busy_disj,
          fun x hx => Nat.lt_succ_of_lt (hs.idle_lt x hx),
          fun x hx => Nat.lt_succ_of_lt (hs.busy_lt x hx), hs.quits_ok⟩
      have hdinv := dispatchTo_winv s.nextId t
        { s with facCalls := s.facCalls + 1, nextId := s.nextId + 1 } hs1w
        (fun hmem => Nat.lt_irrefl _ (hs.busy_lt _ hmem))
        (Nat.lt_succ_self _)
        (fun x hx => by
          intro hxw
          exact Nat.lt_irrefl _ (hxw ▸ hs.idle_lt x hx))
      obtain ⟨hdf1, hdf2, hdf3, hdf4, -, -⟩ := dispatchTo_fields s.nextId t
        { s with facCalls := s.facCalls + 1, nextId := s.nextId + 1 }
      have ha : accounted { s with facCalls := s.facCalls + 1, nextId := s.nextId + 1 } =
          accounted s := rfl
      have ht : taskAccounted { s with facCalls := s.facCalls + 1, nextId := s.nextId + 1 } =
          taskAccounted s := rfl
      have hn : TeamState.nextId { s with facCalls := s.facCalls + 1, nextId := s.nextId + 1 } =
          s.nextId + 1 := rfl
      have hdc : TeamState.doCount { s with facCalls := s.facCalls + 1, nextId := s.nextId + 1 } =
          s.doCount := rfl
      exact ⟨hdinv, by omega, by omega, by omega⟩
    · have heq : coordinateThisTask fac t s =
          { s with facCalls := s.facCalls + 1, pending := s.pending ++ [t] } := by
        rw [coordinateThisTask, h, if_neg hf]
      rw [heq]
      refine ⟨⟨hs.busy_count, hs.idle_nodup, hs.busy_nodup, hs.idle_busy_disj,
        hs.idle_lt, hs.busy_lt, hs.quits_ok⟩, ?_, ?_, ?_⟩
      · simpa [accounted] using hc
      · simp only [taskAccounted]
        simp
        omega
      · rfl
theorem recycleWorker_inv (fac : Nat → Bool) (w : Nat) (s : TeamState)
    (hs : WInv s) (hwi : w ∉ s.idle) (hwb : w ∉ s.busy) (hwlt : w < s.nextId)
    (hc : accounted s + 1 = s.nextId) (ht : taskAccounted s = s.doCount) :
    WInv (recycleWorker fac w s) ∧
    accounted (recycleWorker fac w s) = (recycleWorker fac w s).nextId ∧
    taskAccounted (recycleWorker fac w s) = (recycleWorker fac w s).doCount := by
  have hins : s.idle.insert w = w :: s.idle := List.insert_of_not_mem hwi
  have hs0 : WInv { s with idle := s.idle.insert w } := by
    rw [hins]
    exact ⟨hs.busy_count, List.nodup_cons.mpr ⟨hwi, hs.idle_nodup⟩,
      hs.busy_nodup,
      fun x hx => by
        rcases List.mem_cons.mp hx with hx | hx
        · exact hx ▸ hwb
        · exact hs.idle_busy_disj x hx,
      fun x hx => by
        rcases List.mem_cons.mp hx with hx | hx
        · exact hx ▸ hwlt
        · exact hs.idle_lt x hx,
      hs.busy_lt, hs.quits_ok⟩
  have hacc0 : accounted { s with idle := s.idle.insert w } = s.nextId := by
    simp only [accounted, hins, List.length_cons]
    simp only [accounted] at hc
    omega
  cases hp : s.pending with
  | cons t rest =>
    have heq : recycleWorker fac w s =
        coordinateThisTask fac t
          { s with idle := s.idle.insert w, pending := rest } := by
      simp only [recycleWorker, hp]
    rw [heq]
    have hpre : WInv { s with idle := s.idle.insert w, pending := rest } :=
      ⟨hs0.busy_count, hs0.idle_nodup, hs0.busy_nodup, hs0.idle_busy_disj,
        hs0.idle_lt, hs0.busy_lt, hs0.quits_ok⟩
    have hacc : accounted { s with idle := s.idle.insert w, pending := rest } =
        TeamState.nextId { s with idle := s.idle.insert w, pending := rest } := by
      simpa [accounted] using hacc0
    obtain ⟨h1, h2, h3, h4⟩ := coordinateThisTask_inv fac t
      { s with idle := s.idle.insert w, pending := rest } hpre hacc
    refine ⟨h1, h2, ?_⟩
    have htp : taskAccounted { s with idle := s.idle.insert w, pending := rest } + 1 =
        s.doCount := by
      simp only [taskAccounted] at ht ⊢
      simp only [hp, List.length_cons] at ht
      omega
    have hdc : TeamState.doCount
        { s with idle := s.idle.insert w, pending := rest } = s.doCount := rfl
    omega
  | nil =>
    by_cases hq : s.shouldQuitCoordinator = true
    · have heq : recycleWorker fac w s =
          quitIdlers none { s with idle := s.idle.insert w } := by
        simp only [recycleWorker, hp, hq]
        rfl
      rw [heq]
      obtain ⟨q1, -, -, -, q5, -, -, q8, -⟩ :=
        quitIdlers_fields none { s with idle := s.idle.insert w }
      refine ⟨quitIdlers_winv none _ hs0, ?_, ?_⟩
      · rw [quitIdlers_accounted, q8]
        exact hacc0
      · have : taskAccounted (quitIdlers none { s with idle := s.idle.insert w }) =
            taskAccounted { s with idle := s.idle.insert w } := by
          obtain ⟨-, -, p3, p4, -, -, -, -, -⟩ :=
            quitIdlers_fields none { s with idle := s.idle.insert w }
          simp only [taskAccounted, p3, p4]
        rw [this, q5]
        exact ht
    · simp only [Bool.not_eq_true] at hq
      by_cases hts : 0 < s.toShrink
      · have heq : recycleWorker fac w s =
            { s with
              idle := (s.idle.insert w).erase w
              toShrink := s.toShrink - 1
              workerQuits := s.workerQuits ++
                [{ worker := w, wasIdle := (s.idle.insert w).contains w,
                   wasBusy := s.busy.contains w }] } := by
          simp [recycleWorker, hp, hq, hts]
        rw [heq]
        have herase : (s.idle.insert w).erase w = s.idle := by
          rw [hins]; exact List.erase_cons_head w s.idle
        refine ⟨⟨hs.busy_count, by simpa [herase] using hs.idle_nodup,
          hs.busy_nodup,
          fun x hx => hs.idle_busy_disj x (by simpa [herase] using hx),
          fun x hx => hs.idle_lt x (by simpa [herase] using hx),
          hs.busy_lt, ?_⟩, ?_, ?_⟩
        · intro e he
          simp only [List.mem_append, List.mem_singleton] at he
          rcases he with he | he
          · exact hs.quits_ok e he
          · subst he
            refine ⟨by simp [hins], by simpa using hwb⟩
        · simp only [accounted, herase, List.length_append, List.length_singleton]
          simp only [accounted] at hc
          omega
        · simpa [taskAccounted] using ht
      · have heq : recycleWorker fac w s =
            { s with idle := s.idle.insert w } := by
          simp [recycleWorker, hp, hq, hts]
        rw [heq]
        exact ⟨hs0, hacc0, by simpa [taskAccounted] using ht⟩

theorem createOneWorker_inv (fac : Nat → Bool) (n : Nat) : ∀ s : TeamState,
    WInv s → accounted s = s.nextId → taskAccounted s = s.doCount →
    WInv (createOneWorker fac n s) ∧
    accounted (createOneWorker fac n s) = (createOneWorker fac n s).nextId ∧
    taskAccounted (createOneWorker fac n s) =
      (createOneWorker fac n s).doCount := by
  induction n with
  | zero =>
    intro s hs hc ht
    rw [createOneWorker]
    exact ⟨hs, hc, ht⟩
  | succ n ih =>
    intro s hs hc ht
    rw [createOneWorker]
    by_cases hf : fac s.facCalls = true
    · rw [if_pos hf]
      have hs1 : WInv { s with facCalls := s.facCalls + 1, nextId := s.nextId + 1 } :=
        ⟨hs.busy_count, hs.idle_nodup, hs.busy_nodup, hs.idle_busy_disj,
          fun x hx => Nat.lt_succ_of_lt (hs.idle_lt x hx),
          fun x hx => Nat.lt_succ_of_lt (hs.busy_lt x hx), hs.quits_ok⟩
      obtain ⟨r1, r2, r3⟩ := recycleWorker_inv fac s.nextId
        { s with facCalls := s.facCalls + 1, nextId := s.nextId + 1 } hs1
        (fun hmem => Nat.lt_irrefl _ (hs.idle_lt _ hmem))
        (fun hmem => Nat.lt_irrefl _ (hs.busy_lt _ hmem))
        (Nat.lt_succ_self _)
        (by simpa [accounted] using hc)
        (by simpa [taskAccounted] using ht)
      exact ih _ r1 r2 r3
    · rw [if_neg hf]
      refine ⟨⟨hs.busy_count, hs.idle_nodup, hs.busy_nodup, hs.idle_busy_disj,
        hs.idle_lt, hs.busy_lt, hs.quits_ok⟩,
        by simpa [accounted] using hc,
        by simpa [taskAccounted] using ht⟩

theorem idleAndPending_inv (fac : Nat → Bool) (w : Nat) (s : TeamState)
    (hs : WInv s) (hc : accounted s = s.nextId)
    (ht : taskAccounted s = s.doCount) (hw : w ∈ s.busy) :
    WInv (idleAndPending fac w s) ∧
    accounted (idleAndPending fac w s) = (idleAndPending fac w s).nextId ∧
    taskAccounted (idleAndPending fac w s) =
      (idleAndPending fac w s).doCount := by
  have hlen : (s.busy.erase w).length = s.busy.length - 1 :=
    List.length_erase_of_mem hw
  have hpos : 0 < s.busy.length := List.length_pos_of_mem hw
  have hs1 : WInv { s with busyCount := s.busyCount - 1, busy := s.busy.erase w } := by
    refine ⟨?_, hs.idle_nodup, hs.busy_nodup.erase w,
      fun x hx hmem => hs.idle_busy_disj x hx (List.mem_of_mem_erase hmem),
      hs.idle_lt,
      fun x hx => hs.busy_lt x (List.mem_of_mem_erase hx), hs.quits_ok⟩
    simp only [hlen, hs.busy_count]
  refine recycleWorker_inv fac w _ hs1 ?_ ?_ (hs.busy_lt w hw) ?_ ?_
  · intro hmem
    exact hs.idle_busy_disj w hmem hw
  · intro hmem
    exact ((hs.busy_nodup.mem_erase_iff).mp hmem).1 rfl
  · simp only [accounted, hlen]
    simp only [accounted] at hc
    omega
  · simpa [taskAccounted] using ht

theorem startFinishing_inv (s : TeamState) (hs : WInv s)
    (hc : accounted s = s.nextId) (ht : taskAccounted s = s.doCount) :
    WInv (startFinishing s) ∧
    accounted (startFinishing s) = (startFinishing s).nextId ∧
    taskAccounted (startFinishing s) = (startFinishing s).doCount := by
  have hs1 : WInv { s with shouldQuitCoordinator := true } :=
    ⟨hs.busy_count, hs.idle_nodup, hs.busy_nodup, hs.idle_busy_disj,
      hs.idle_lt, hs.busy_lt, hs.quits_ok⟩
  rw [startFinishing]
  obtain ⟨-, -, p3, p4, p5, -, -, p8, -⟩ :=
    quitIdlers_fields none { s with shouldQuitCoordinator := true }
  refine ⟨quitIdlers_winv none _ hs1, ?_, ?_⟩
  · rw [quitIdlers_accounted, p8]
    simpa [accounted] using hc
  · simp only [taskAccounted, p3, p4, p5]
    simpa [taskAccounted] using ht

/-- The inductive invariant holds in every reachable state. -/
theorem reachable_inv (fac : Nat → Bool) (s : TeamState)
    (h : Reachable fac s) :
    WInv s ∧ accounted s = s.nextId ∧ taskAccounted s = s.doCount := by
  induction h with
  | init =>
    refine ⟨⟨?_, ?_, ?_, ?_, ?_, ?_, ?_⟩, ?_, ?_⟩ <;>
      simp [initialState, accounted, taskAccounted]
  | step op hr he ih =>
    obtain ⟨hw, hc, ht⟩ := ih
    cases op with
    | growC n => exact createOneWorker_inv fac n _ hw hc ht
    | shrinkC nOpt =>
      rename_i s
      simp only [applyOp]
      refine ⟨quitIdlers_winv nOpt _ hw, ?_, ?_⟩
      · obtain ⟨-, -, -, -, -, -, -, p8, -⟩ := quitIdlers_fields nOpt s
        rw [quitIdlers_accounted, p8]
        exact hc
      · obtain ⟨-, -, p3, p4, p5, -, -, -, -⟩ := quitIdlers_fields nOpt s
        simp only [taskAccounted, p3, p4, p5]
        exact ht
    | doC =>
      rename_i s
      simp only [applyOp]
      have hw1 : WInv { s with doCount := s.doCount + 1 } :=
        ⟨hw.busy_count, hw.idle_nodup, hw.busy_nodup, hw.idle_busy_disj,
          hw.idle_lt, hw.busy_lt, hw.quits_ok⟩
      have hc1 : accounted { s with doCount := s.doCount + 1 } =
          TeamState.nextId { s with doCount := s.doCount + 1 } := by
        simpa [accounted] using hc
      obtain ⟨c1, c2, c3, c4⟩ := coordinateThisTask_inv fac s.doCount
        { s with doCount := s.doCount + 1 } hw1 hc1
      refine ⟨c1, c2, ?_⟩
      have h1 : taskAccounted { s with doCount := s.doCount + 1 } =
          taskAccounted s := rfl
      have h2 : TeamState.doCount { s with doCount := s.doCount + 1 } =
          s.doCount + 1 := rfl
      omega
    | completeC w => exact idleAndPending_inv fac w _ hw hc ht he
    | quitC =>
      rename_i s
      have hw1 : WInv { s with quit := Quit.set s.quit } :=
        ⟨hw.busy_count, hw.idle_nodup, hw.busy_nodup, hw.idle_busy_disj,
          hw.idle_lt, hw.busy_lt, hw.quits_ok⟩
      exact startFinishing_inv _ hw1 (by simpa [accounted] using hc)
        (by simpa [taskAccounted] using ht)

/-! ### Branch equations for `recycleWorker` -/

theorem recycleWorker_pending_eq (fac : Nat → Bool) (w t : Nat)
    (s : TeamState) (rest : List Nat) (hp : s.pending = t :: rest) :
    recycleWorker fac w s =
      coordinateThisTask fac t
        { s with idle := s.idle.insert w, pending := rest } := by
  simp only [recycleWorker, hp]

theorem recycleWorker_quit_eq (fac : Nat → Bool) (w : Nat) (s : TeamState)
    (hp : s.pending = []) (hq : s.shouldQuitCoordinator = true) :
    recycleWorker fac w s =
      quitIdlers none { s with idle := s.idle.insert w } := by
  simp only [recycleWorker, hp, hq]
  rfl

theorem recycleWorker_shrink_eq (fac : Nat → Bool) (w : Nat) (s : TeamState)
    (hp : s.pending = []) (hq : s.shouldQuitCoordinator = false)
    (hts : 0 < s.toShrink) :
    recycleWorker fac w s =
      { s with
        idle := (s.idle.insert w).erase w
        toShrink := s.toShrink - 1
        workerQuits := s.workerQuits ++
          [{ worker := w, wasIdle := (s.idle.insert w).contains w,
             wasBusy := s.busy.contains w }] } := by
  simp [recycleWorker, hp, hq, hts]

theorem recycleWorker_else_eq (fac : Nat → Bool) (w : Nat) (s : TeamState)
    (hp : s.pending = []) (hq : s.shouldQuitCoordinator = false)
    (hts : s.toShrink = 0) :
    recycleWorker fac w s = { s with idle := s.idle.insert w } := by
  simp [recycleWorker, hp, hq, hts]

/-! ### Drain and growth characterizations -/

theorem insert_ne_nil (l : List Nat) (a : Nat) : l.insert a ≠ [] := by
  by_cases h : a ∈ l
  · rw [List.insert_of_mem h]
    intro hc
    exact absurd (hc ▸ h) (List.not_mem_nil a)
  · rw [List.insert_of_not_mem h]
    exact List.cons_ne_nil a l

theorem quitLoop_drain (n : Nat) : ∀ s : TeamState, s.idle.length ≤ n →
    (quitLoop n s).idle = [] ∧
    (quitLoop n s).toShrink = s.toShrink + (n - s.idle.length) ∧
    (quitLoop n s).workerQuits.length =
      s.workerQuits.length + s.idle.length := by
  induction n with
  | zero =>
    intro s hle
    have hnil : s.idle = [] := List.eq_nil_of_length_eq_zero (Nat.le_zero.mp hle)
    simp [quitLoop, hnil]
  | succ n ih =>
    intro s hle
    cases h : s.idle with
    | nil =>
      rw [quitLoop, h]
      obtain ⟨i1, i2, i3⟩ := ih { s with idle := [], toShrink := s.toShrink + 1 }
        (by simp)
      refine ⟨i1, ?_, ?_⟩
      · rw [i2]
        dsimp only
        simp only [h, List.length_nil]
        omega
      · rw [i3]
    | cons w rest =>
      rw [quitLoop, h]
      have hlen : rest.length ≤ n := by
        have := hle
        rw [h] at this
        simpa using this
      obtain ⟨i1, i2, i3⟩ := ih
        { s with
          idle := rest
          workerQuits := s.workerQuits ++
            [{ worker := w, wasIdle := (w :: rest).contains w,
               wasBusy := s.busy.contains w }] } hlen
      refine ⟨i1, ?_, ?_⟩
      · rw [i2]
        simp [h]
      · rw [i3]
        simp [h]
        omega

theorem createOneWorker_all (n : Nat) : ∀ s : TeamState,
    s.pending = [] → s.shouldQuitCoordinator = false → s.toShrink = 0 →
    (∀ x ∈ s.idle, x < s.nextId) →
    (createOneWorker (fun _ => true) n s).idle.length = s.idle.length + n ∧
    (createOneWorker (fun _ => true) n s).busyCount = s.busyCount ∧
    (createOneWorker (fun _ => true) n s).pending = [] ∧
    (createOneWorker (fun _ => true) n s).toShrink = 0 ∧
    (createOneWorker (fun _ => true) n s).handed = s.handed := by
  induction n with
  | zero =>
    intro s hp hq hts hb
    rw [createOneWorker]
    exact ⟨rfl, rfl, hp, hts, rfl⟩
  | succ n ih =>
    intro s hp hq hts hb
    rw [createOneWorker, if_pos rfl]
    have heq : recycleWorker (fun _ => true) s.nextId
        { s with facCalls := s.facCalls + 1, nextId := s.nextId + 1 } =
        { s with
          facCalls := s.facCalls + 1
          nextId := s.nextId + 1
          idle := s.idle.insert s.nextId } :=
      recycleWorker_else_eq _ _ _ hp hq hts
    rw [heq]
    have hnm : s.nextId ∉ s.idle := fun hmem => Nat.lt_irrefl _ (hb _ hmem)
    have hins : s.idle.insert s.nextId = s.nextId :: s.idle :=
      List.insert_of_not_mem hnm
    obtain ⟨i1, i2, i3, i4, i5⟩ := ih
      { s with
        facCalls := s.facCalls + 1
        nextId := s.nextId + 1
        idle := s.idle.insert s.nextId } hp hq hts
      (by
        intro x hx
        simp only [hins, List.mem_cons] at hx
        rcases hx with hx | hx
        · subst hx
          exact Nat.lt_succ_self s.nextId
        · exact Nat.lt_succ_of_lt (hb x hx))
    refine ⟨?_, i2, i3, i4, i5⟩
    rw [i1]
    simp [hins]
    omega

theorem createOneWorker_bounded (k n : Nat) : ∀ s : TeamState,
    s.pending = [] → s.shouldQuitCoordinator = false → s.toShrink = 0 →
    (∀ x ∈ s.idle, x < s.nextId) → s.facCalls = s.nextId → s.nextId ≤ k →
    k < s.nextId + n →
    (createOneWorker (fun i => decide (i < k)) n s).idle.length =
      s.idle.length + (k - s.nextId) ∧
    (createOneWorker (fun i => decide (i < k)) n s).facCalls = k + 1 ∧
    (createOneWorker (fun i => decide (i < k)) n s).nextId = k ∧
    (createOneWorker (fun i => decide (i < k)) n s).busyCount = s.busyCount ∧
    (createOneWorker (fun i => decide (i < k)) n s).pending = [] := by
  induction n with
  | zero =>
    intro s hp hq hts hb hfc hle hlt
    omega
  | succ n ih =>
    intro s hp hq hts hb hfc hle hlt
    by_cases hcr : s.nextId < k
    · have hfac : (fun i => decide (i < k)) s.facCalls = true := by
        simp [hfc, hcr]
      rw [createOneWorker, if_pos hfac]
      have heq : recycleWorker (fun i => decide (i < k)) s.nextId
          { s with facCalls := s.facCalls + 1, nextId := s.nextId + 1 } =
          { s with
            facCalls := s.facCalls + 1
            nextId := s.nextId + 1
            idle := s.idle.insert s.nextId } :=
        recycleWorker_else_eq _ _ _ hp hq hts
      rw [heq]
      have hnm : s.nextId ∉ s.idle := fun hmem => Nat.lt_irrefl _ (hb _ hmem)
      have hins : s.idle.insert s.nextId = s.nextId :: s.idle :=
        List.insert_of_not_mem hnm
      obtain ⟨i1, i2, i3, i4, i5⟩ := ih
        { s with
          facCalls := s.facCalls + 1
          nextId := s.nextId + 1
          idle := s.idle.insert s.nextId } hp hq hts
        (by
          intro x hx
          simp only [hins, List.mem_cons] at hx
          rcases hx with hx | hx
          · subst hx
            exact Nat.lt_succ_self s.nextId
          · exact Nat.lt_succ_of_lt (hb x hx))
        (by show s.facCalls + 1 = s.nextId + 1; omega) hcr
        (by show k < s.nextId + 1 + n; omega)
      refine ⟨?_, i2, i3, i4, i5⟩
      rw [i1]
      simp [hins]
      omega
    · have hk : s.nextId = k := by omega
      have hfac : (fun i => decide (i < k)) s.facCalls = false := by
        simp [hfc, hk]
      rw [createOneWorker, if_neg (by simp [hfac])]
      refine ⟨by simp [hk], by simp [hfc, hk], by simp [hk], rfl, hp⟩

theorem createOneWorker_shrinkDebt (m : Nat) : ∀ s : TeamState,
    s.pending = [] → s.shouldQuitCoordinator = false → m ≤ s.toShrink →
    (∀ x ∈ s.idle, x < s.nextId) →
    (createOneWorker (fun _ => true) m s).idle = s.idle ∧
    (createOneWorker (fun _ => true) m s).toShrink = s.toShrink - m ∧
    (createOneWorker (fun _ => true) m s).workerQuits.length =
      s.workerQuits.length + m ∧
    (createOneWorker (fun _ => true) m s).busyCount = s.busyCount := by
  induction m with
  | zero =>
    intro s hp hq hle hb
    rw [createOneWorker]
    exact ⟨rfl, by omega, rfl, rfl⟩
  | succ m ih =>
    intro s hp hq hle hb
    rw [createOneWorker, if_pos rfl]
    have hts : 0 < TeamState.toShrink
        { s with facCalls := s.facCalls + 1, nextId := s.nextId + 1 } := by
      simp only []
      omega
    have heq : recycleWorker (fun _ => true) s.nextId
        { s with facCalls := s.facCalls + 1, nextId := s.nextId + 1 } =
        { s with
          facCalls := s.facCalls + 1
          nextId := s.nextId + 1
          idle := (s.idle.insert s.nextId).erase s.nextId
          toShrink := s.toShrink - 1
          workerQuits := s.workerQuits ++
            [{ worker := s.nextId,
               wasIdle := (s.idle.insert s.nextId).contains s.nextId,
               wasBusy := s.busy.contains s.nextId }] } :=
      recycleWorker_shrink_eq (fun _ => true) s.nextId
        { s with facCalls := s.facCalls + 1, nextId := s.nextId + 1 } hp hq hts
    rw [heq]
    have hnm : s.nextId ∉ s.idle := fun hmem => Nat.lt_irrefl _ (hb _ hmem)
    have hins : s.idle.insert s.nextId = s.nextId :: s.idle :=
      List.insert_of_not_mem hnm
    have herase : (s.idle.insert s.nextId).erase s.nextId = s.idle := by
      rw [hins]
      exact List.erase_cons_head s.nextId s.idle
    obtain ⟨i1, i2, i3, i4⟩ := ih
      { s with
        facCalls := s.facCalls + 1
        nextId := s.nextId + 1
        idle := (s.idle.insert s.nextId).erase s.nextId
        toShrink := s.toShrink - 1
        workerQuits := s.workerQuits ++
          [{ worker := s.nextId,
             wasIdle := (s.idle.insert s.nextId).contains s.nextId,
             wasBusy := s.busy.contains s.nextId }] } hp hq
      (by show m ≤ s.toShrink - 1; omega)
      (by
        intro x hx
        simp only [herase] at hx
        exact Nat.lt_succ_of_lt (hb x hx))
    refine ⟨by rw [i1]; simp [herase],
      by rw [i2]; show s.toShrink - 1 - m = s.toShrink - (m + 1); omega,
      ?_, i4⟩
    rw [i3]
    show (s.workerQuits ++
      [({ worker := s.nextId,
          wasIdle := (s.idle.insert s.nextId).contains s.nextId,
          wasBusy := s.busy.contains s.nextId } : QuitEvent)]).length + m =
      s.workerQuits.length + (m + 1)
    simp
    omega

end Team

/-! ### Claim theorems -/

/-- C1: Conservation invariant: along every sequence of coordinator-serialized
operations from the initial state, the size of the idle set plus `busyCount`
equals the number of workers returned by the factory (`nextId`) minus the
number of workers whose `quit()` has been called, and the length of `pending`
equals the number of tasks passed to `do` (`doCount`) that have not yet been
handed to the `do` of a worker (`handed`). -/
theorem conservation_invariant (fac : Nat → Bool) (s : TeamState)
    (h : Team.Reachable fac s) :
    s.idle.length + s.busyCount = s.nextId - s.workerQuits.length ∧
    s.pending.length = s.doCount - s.handed.length := by
  obtain ⟨hw, hc, ht⟩ := Team.reachable_inv fac s h
  have hb := hw.busy_count
  simp only [Team.accounted] at hc
  simp only [Team.taskAccounted] at ht
  omega

/-- Witness for C1 at a concrete reachable state: after running the `grow(2)`
closure with an unlimited factory, the conservation equations hold. -/
theorem conservation_invariant_witness :
    (Team.applyOp (fun _ => true) (Team.Op.growC 2) Team.initialState).idle.length +
      (Team.applyOp (fun _ => true) (Team.Op.growC 2) Team.initialState).busyCount =
      (Team.applyOp (fun _ => true) (Team.Op.growC 2) Team.initialState).nextId -
        (Team.applyOp (fun _ => true) (Team.Op.growC 2) Team.initialState).workerQuits.length ∧
    (Team.applyOp (fun _ => true) (Team.Op.growC 2) Team.initialState).pending.length =
      (Team.applyOp (fun _ => true) (Team.Op.growC 2) Team.initialState).doCount -
        (Team.applyOp (fun _ => true) (Team.Op.growC 2) Team.initialState).handed.length :=
  conservation_invariant (fun _ => true) _
    (Team.Reachable.step (Team.Op.growC 2) Team.Reachable.init trivial)

/-- C2: `recycleWorker(w)` first adds `w` to the idle set and then applies
exactly one of three branches in priority order: (1) non-empty `pending` pops
the oldest task into `coordinateThisTask` (for any state, so no quit-guard
check); (2) else `shouldQuitCoordinator` runs `quitIdlers` with no argument;
(3) else `toShrink > 0` decrements it, removes `w` from idle and calls
`w.quit()`; otherwise `w` stays idle. -/
theorem recycleWorker_branch_priority (fac : Nat → Bool) (w : Nat)
    (s : TeamState) (hw : w ∉ s.idle) :
    (∀ t rest, s.pending = t :: rest →
      Team.recycleWorker fac w s =
        Team.coordinateThisTask fac t
          { s with idle := w :: s.idle, pending := rest }) ∧
    (s.pending = [] → s.shouldQuitCoordinator = true →
      Team.recycleWorker fac w s =
        Team.quitIdlers none { s with idle := w :: s.idle }) ∧
    (s.pending = [] → s.shouldQuitCoordinator = false → 0 < s.toShrink →
      Team.recycleWorker fac w s =
        { s with
          toShrink := s.toShrink - 1
          workerQuits := s.workerQuits ++
            [{ worker := w, wasIdle := true,
               wasBusy := s.busy.contains w }] }) ∧
    (s.pending = [] → s.shouldQuitCoordinator = false → s.toShrink = 0 →
      Team.recycleWorker fac w s = { s with idle := w :: s.idle } ∧
      w ∈ (Team.recycleWorker fac w s).idle) := by
  have hins : s.idle.insert w = w :: s.idle := List.insert_of_not_mem hw
  refine ⟨?_, ?_, ?_, ?_⟩
  · intro t rest hp
    rw [Team.recycleWorker_pending_eq fac w t s rest hp, hins]
  · intro hp hq
    rw [Team.recycleWorker_quit_eq fac w s hp hq, hins]
  · intro hp hq hts
    rw [Team.recycleWorker_shrink_eq fac w s hp hq hts]
    rw [hins, List.erase_cons_head]
    have hcont : (w :: s.idle).contains w = true := by simp
    rw [hcont]
  · intro hp hq hts
    rw [Team.recycleWorker_else_eq fac w s hp hq hts, hins]
    exact ⟨rfl, List.mem_cons_self w s.idle⟩

/-- Witness for C2 at the initial state and worker `0`. -/
theorem recycleWorker_branch_priority_witness :
    (∀ t rest, Team.initialState.pending = t :: rest →
      Team.recycleWorker (fun _ => true) 0 Team.initialState =
        Team.coordinateThisTask (fun _ => true) t
          { Team.initialState with
            idle := 0 :: Team.initialState.idle, pending := rest }) ∧
    (Team.initialState.pending = [] →
      Team.initialState.shouldQuitCoordinator = true →
      Team.recycleWorker (fun _ => true) 0 Team.initialState =
        Team.quitIdlers none
          { Team.initialState with idle := 0 :: Team.initialState.idle }) ∧
    (Team.initialState.pending = [] →
      Team.initialState.shouldQuitCoordinator = false →
      0 < Team.initialState.toShrink →
      Team.recycleWorker (fun _ => true) 0 Team.initialState =
        { Team.initialState with
          toShrink := Team.initialState.toShrink - 1
          workerQuits := Team.initialState.workerQuits ++
            [{ worker := 0, wasIdle := true,
               wasBusy := Team.initialState.busy.contains 0 }] }) ∧
    (Team.initialState.pending = [] →
      Team.initialState.shouldQuitCoordinator = false →
      Team.initialState.toShrink = 0 →
      Team.recycleWorker (fun _ => true) 0 Team.initialState =
        { Team.initialState with idle := 0 :: Team.initialState.idle } ∧
      0 ∈ (Team.recycleWorker (fun _ => true) 0 Team.initialState).idle) :=
  recycleWorker_branch_priority (fun _ => true) 0 Team.initialState
    (by simp [Team.initialState])

/-- C3: once `quit()` has set the quit flag, `grow`, `shrink` and `do` each
raise `AlreadyQuit` synchronously and submit nothing (the returned state is
the unchanged input); before `quit()` none of them raises. -/
theorem already_quit_guard (fac : Nat → Bool) (n : Nat) (nOpt : Option Nat)
    (s : TeamState) :
    (s.quit.isSet = true →
      Team.grow fac n s = (some AlreadyQuit.mk, s) ∧
      Team.shrink nOpt s = (some AlreadyQuit.mk, s) ∧
      Team.doTask fac s = (some AlreadyQuit.mk, s)) ∧
    (s.quit.isSet = false →
      (Team.grow fac n s).1 = none ∧
      (Team.shrink nOpt s).1 = none ∧
      (Team.doTask fac s).1 = none) := by
  constructor
  · intro h
    refine ⟨?_, ?_, ?_⟩ <;>
      simp [Team.grow, Team.shrink, Team.doTask, Quit.check, h]
  · intro h
    refine ⟨?_, ?_, ?_⟩ <;>
      simp [Team.grow, Team.shrink, Team.doTask, Quit.check, h]

/-- Witness for C3: a quit pool rejects all three calls unchanged; a fresh
pool rejects none. -/
theorem already_quit_guard_witness :
    (Team.grow (fun _ => true) 1
        { Team.initialState with quit := { isSet := true } } =
      (some AlreadyQuit.mk,
        { Team.initialState with quit := { isSet := true } }) ∧
     Team.shrink none { Team.initialState with quit := { isSet := true } } =
      (some AlreadyQuit.mk,
        { Team.initialState with quit := { isSet := true } }) ∧
     Team.doTask (fun _ => true)
        { Team.initialState with quit := { isSet := true } } =
      (some AlreadyQuit.mk,
        { Team.initialState with quit := { isSet := true } })) ∧
    ((Team.grow (fun _ => true) 1 Team.initialState).1 = none ∧
     (Team.shrink none Team.initialState).1 = none ∧
     (Team.doTask (fun _ => true) Team.initialState).1 = none) :=
  ⟨(already_quit_guard (fun _ => true) 1 none
      { Team.initialState with quit := { isSet := true } }).1 rfl,
   (already_quit_guard (fun _ => true) 1 none Team.initialState).2 rfl⟩

/-- C6: worker `quit()` is only ever called on a worker taken from the
idle set, never on a busy worker: every recorded quit event found its worker
idle and not busy; and a shrink iteration finding the idle set empty defers
by incrementing `toShrink` instead of quitting anyone. -/
theorem quit_only_from_idle (fac : Nat → Bool) (s : TeamState)
    (h : Team.Reachable fac s) :
    (∀ e ∈ s.workerQuits, e.wasIdle = true ∧ e.wasBusy = false) ∧
    (∀ (s2 : TeamState) (n : Nat), s2.idle = [] →
      Team.quitLoop (n + 1) s2 =
        Team.quitLoop n { s2 with toShrink := s2.toShrink + 1 }) := by
  obtain ⟨hw, -, -⟩ := Team.reachable_inv fac s h
  refine ⟨hw.quits_ok, ?_⟩
  intro s2 n h2
  rw [Team.quitLoop, h2]

/-- C4: any exception a task raises is caught by `doWork` and logged exactly
once, never escapes (the result is always `Except.ok`), and the bookkeeping
closure is still submitted; that closure decrements `busyCount` and recycles
the worker back into the idle set. -/
theorem task_failure_contained (E : Type) (task : Unit → Except E Unit) :
    ((∀ e : E, task () = Except.error e →
        Team.doWork task =
          Except.ok { logExceptionCalls := 1, idleAndPendingSubmitted := true }) ∧
     (task () = Except.ok () →
        Team.doWork task =
          Except.ok { logExceptionCalls := 0, idleAndPendingSubmitted := true })) ∧
    (∀ (fac : Nat → Bool) (w : Nat) (s : TeamState),
      s.pending = [] → s.shouldQuitCoordinator = false → s.toShrink = 0 →
      (Team.idleAndPending fac w s).busyCount = s.busyCount - 1 ∧
      w ∈ (Team.idleAndPending fac w s).idle) := by
  refine ⟨⟨?_, ?_⟩, ?_⟩
  · intro e he
    simp [Team.doWork, he, Except.tryCatch, pure, Except.pure, Bind.bind,
      Except.bind]
  · intro he
    simp [Team.doWork, he, Except.tryCatch, pure, Except.pure, Bind.bind,
      Except.bind]
  · intro fac w s hp hq hts
    have heq : Team.idleAndPending fac w s =
        { s with
          busyCount := s.busyCount - 1
          busy := s.busy.erase w
          idle := s.idle.insert w } :=
      Team.recycleWorker_else_eq fac w
        { s with busyCount := s.busyCount - 1, busy := s.busy.erase w }
        hp hq hts
    rw [heq]
    exact ⟨rfl, List.mem_insert_self w s.idle⟩

/-- Witness for C4: a failing task logs once, a succeeding one never; the
bookkeeping closure frees the single busy worker. -/
theorem task_failure_contained_witness :
    Team.doWork (fun _ => Except.error (7 : Nat)) =
      Except.ok { logExceptionCalls := 1, idleAndPendingSubmitted := true } ∧
    Team.doWork (fun _ => (Except.ok () : Except Nat Unit)) =
      Except.ok { logExceptionCalls := 0, idleAndPendingSubmitted := true } ∧
    (Team.idleAndPending (fun _ => true) 0
      { Team.initialState with
        busyCount := 1, busy := [0], nextId := 1 }).busyCount = 1 - 1 ∧
    0 ∈ (Team.idleAndPending (fun _ => true) 0
      { Team.initialState with
        busyCount := 1, busy := [0], nextId := 1 }).idle :=
  ⟨(task_failure_contained Nat (fun _ => Except.error 7)).1.1 7 rfl,
   (task_failure_contained Nat (fun _ => Except.ok ())).1.2 rfl,
   ((task_failure_contained Nat (fun _ => Except.ok ())).2 (fun _ => true) 0
     { Team.initialState with busyCount := 1, busy := [0], nextId := 1 }
     rfl rfl rfl).1,
   ((task_failure_contained Nat (fun _ => Except.ok ())).2 (fun _ => true) 0
     { Team.initialState with busyCount := 1, busy := [0], nextId := 1 }
     rfl rfl rfl).2⟩

/-- C5: the `quit()` of the exclusive worker happens in a `quitIdlers` run exactly
when `shouldQuitCoordinator` holds and `busyCount = 0` at the end of the run
(both are untouched by the run itself); so `quit()` with no busy worker quits
the coordinator at once, while `quit()` with busy workers defers until the
completion of the last busy worker recycles. -/
theorem coordinator_quit_condition (fac : Nat → Bool) (nOpt : Option Nat)
    (w : Nat) (s : TeamState) :
    (s.coordinatorQuit = false →
      ((Team.quitIdlers nOpt s).coordinatorQuit = true ↔
        s.shouldQuitCoordinator = true ∧ s.busyCount = 0)) ∧
    (s.busyCount = 0 → (Team.quitTeam s).coordinatorQuit = true) ∧
    (0 < s.busyCount → s.coordinatorQuit = false →
      (Team.quitTeam s).coordinatorQuit = false) ∧
    (s.busyCount = 1 → s.pending = [] → s.shouldQuitCoordinator = true →
      (Team.idleAndPending fac w s).coordinatorQuit = true) := by
  have key : ∀ (nOpt1 : Option Nat) (s1 : TeamState),
      (Team.quitIdlers nOpt1 s1).coordinatorQuit =
        ((s1.shouldQuitCoordinator && s1.busyCount == 0) ||
          s1.coordinatorQuit) := by
    intro nOpt1 s1
    rw [Team.quitIdlers_eq]
    obtain ⟨f1, -, -, -, -, f6, f7, -, -, -⟩ :=
      Team.quitLoop_fields (Team.quitCount nOpt1 s1) s1
    dsimp only
    rw [f1, f6, f7]
  refine ⟨?_, ?_, ?_, ?_⟩
  · intro hcq
    rw [key, hcq]
    simp
  · intro hb
    have hqe : Team.quitTeam s =
        Team.quitIdlers none
          { s with quit := Quit.set s.quit, shouldQuitCoordinator := true } :=
      rfl
    rw [hqe, key]
    simp [hb]
  · intro hb hcq
    have hqe : Team.quitTeam s =
        Team.quitIdlers none
          { s with quit := Quit.set s.quit, shouldQuitCoordinator := true } :=
      rfl
    have hne : s.busyCount ≠ 0 := Nat.pos_iff_ne_zero.mp hb
    rw [hqe, key]
    simp [hne, hcq]
  · intro hb hp hq
    have heq : Team.idleAndPending fac w s =
        Team.quitIdlers none
          { s with
            busyCount := s.busyCount - 1
            busy := s.busy.erase w
            idle := s.idle.insert w } :=
      Team.recycleWorker_quit_eq fac w
        { s with busyCount := s.busyCount - 1, busy := s.busy.erase w } hp hq
    rw [heq, key]
    simp [hb, hq]

/-- Witness for C5: the four conjuncts at concrete pools (fresh pool; a pool
with one busy worker; its completion after `quit`). -/
theorem coordinator_quit_condition_witness :
    ((Team.quitIdlers none Team.initialState).coordinatorQuit = true ↔
      Team.initialState.shouldQuitCoordinator = true ∧
        Team.initialState.busyCount = 0) ∧
    (Team.quitTeam Team.initialState).coordinatorQuit = true ∧
    (Team.quitTeam
      { Team.initialState with
        busyCount := 1, busy := [0], nextId := 1 }).coordinatorQuit = false ∧
    (Team.idleAndPending (fun _ => true) 0
      { Team.initialState with
        busyCount := 1, busy := [0], nextId := 1,
        shouldQuitCoordinator := true }).coordinatorQuit = true :=
  ⟨(coordinator_quit_condition (fun _ => true) none 0 Team.initialState).1 rfl,
   (coordinator_quit_condition (fun _ => true) none 0 Team.initialState).2.1 rfl,
   (coordinator_quit_condition (fun _ => true) none 0
     { Team.initialState with busyCount := 1, busy := [0], nextId := 1 }).2.2.1
     (by decide) rfl,
   (coordinator_quit_condition (fun _ => true) none 0
     { Team.initialState with
       busyCount := 1, busy := [0], nextId := 1,
       shouldQuitCoordinator := true }).2.2.2 rfl rfl rfl⟩

/-- C7: `do(task)` with no idle worker and a factory returning none queues the
task (backlog grows by exactly one, no error, `busyCount` unchanged, nothing
handed out); and a recycled worker always picks up the oldest pending task
first (FIFO). -/
theorem do_backlog_fifo (fac : Nat → Bool) (s : TeamState) (w t : Nat)
    (rest : List Nat) :
    (s.idle = [] → fac s.facCalls = false → s.quit.isSet = false →
      (Team.doTask fac s).1 = none ∧
      (Team.doTask fac s).2.pending = s.pending ++ [s.doCount] ∧
      (Team.statistics (Team.doTask fac s).2).backloggedWorkCount =
        (Team.statistics s).backloggedWorkCount + 1 ∧
      (Team.doTask fac s).2.busyCount = s.busyCount ∧
      (Team.doTask fac s).2.handed = s.handed) ∧
    (s.pending = t :: rest →
      (Team.recycleWorker fac w s).handed = s.handed ++ [t] ∧
      (Team.recycleWorker fac w s).pending = rest) := by
  constructor
  · intro hidle hfac hquit
    refine ⟨?_, ?_, ?_, ?_, ?_⟩ <;>
      simp [Team.doTask, Quit.check, hquit, Team.coordinateThisTask, hidle,
        hfac, Team.statistics]
  · intro hp
    rw [Team.recycleWorker_pending_eq fac w t s rest hp]
    obtain ⟨x, xs, hx⟩ :=
      List.exists_cons_of_ne_nil (Team.insert_ne_nil s.idle w)
    constructor
    · simp only [Team.coordinateThisTask, hx]
      simp [Team.dispatchTo]
    · simp only [Team.coordinateThisTask, hx]
      simp [Team.dispatchTo]

/-- Witness for C7: a fresh pool with an exhausted factory backlogs the first
task; a pool with one pending task hands it to the recycled worker. -/
theorem do_backlog_fifo_witness :
    ((Team.doTask (fun _ => false) Team.initialState).1 = none ∧
     (Team.doTask (fun _ => false) Team.initialState).2.pending =
       Team.initialState.pending ++ [Team.initialState.doCount] ∧
     (Team.statistics
        (Team.doTask (fun _ => false) Team.initialState).2).backloggedWorkCount =
       (Team.statistics Team.initialState).backloggedWorkCount + 1 ∧
     (Team.doTask (fun _ => false) Team.initialState).2.busyCount =
       Team.initialState.busyCount ∧
     (Team.doTask (fun _ => false) Team.initialState).2.handed =
       Team.initialState.handed) ∧
    ((Team.recycleWorker (fun _ => true) 0
        { Team.initialState with pending := [5] }).handed =
      { Team.initialState with pending := [5] }.handed ++ [5] ∧
     (Team.recycleWorker (fun _ => true) 0
        { Team.initialState with pending := [5] }).pending = []) :=
  ⟨(do_backlog_fifo (fun _ => false) Team.initialState 0 5 []).1 rfl rfl rfl,
   (do_backlog_fifo (fun _ => true)
     { Team.initialState with pending := [5] } 0 5 []).2 rfl⟩

/-- C8: `grow(n)` on a fresh pool with an unlimited factory yields exactly
`n` idle workers, no busy worker, no backlog, and no error. -/
theorem grow_fresh_pool (n : Nat) :
    (Team.grow (fun _ => true) n Team.initialState).1 = none ∧
    (Team.statistics
      (Team.grow (fun _ => true) n Team.initialState).2).idleWorkerCount = n ∧
    (Team.statistics
      (Team.grow (fun _ => true) n Team.initialState).2).busyWorkerCount = 0 ∧
    (Team.grow (fun _ => true) n Team.initialState).2.pending = [] := by
  have hgrow : Team.grow (fun _ => true) n Team.initialState =
      (none, Team.createOneWorker (fun _ => true) n Team.initialState) := rfl
  rw [hgrow]
  obtain ⟨a1, a2, a3, a4, a5⟩ := Team.createOneWorker_all n Team.initialState
    rfl rfl rfl (by simp [Team.initialState])
  refine ⟨rfl, ?_, ?_, a3⟩
  · simpa [Team.statistics, Team.initialState] using a1
  · simpa [Team.statistics, Team.initialState] using a2

/-- C9: if during `grow(n)` the factory yields `k < n` workers and then none,
the creation loop stops at the first none: exactly `k` workers are created
and sit idle, the factory is called exactly `k + 1` times, and no error is
raised. -/
theorem grow_stops_at_exhaustion (n k : Nat) (hk : k < n) :
    (Team.grow (fun i => decide (i < k)) n Team.initialState).1 = none ∧
    (Team.statistics
      (Team.grow (fun i => decide (i < k)) n
        Team.initialState).2).idleWorkerCount = k ∧
    (Team.grow (fun i => decide (i < k)) n Team.initialState).2.nextId = k ∧
    (Team.grow (fun i => decide (i < k)) n Team.initialState).2.facCalls =
      k + 1 ∧
    (Team.statistics
      (Team.grow (fun i => decide (i < k)) n
        Team.initialState).2).busyWorkerCount = 0 := by
  have hgrow : Team.grow (fun i => decide (i < k)) n Team.initialState =
      (none,
        Team.createOneWorker (fun i => decide (i < k)) n Team.initialState) :=
    rfl
  rw [hgrow]
  obtain ⟨a1, a2, a3, a4, a5⟩ := Team.createOneWorker_bounded k n
    Team.initialState rfl rfl rfl (by simp [Team.initialState]) rfl
    (by show (0 : Nat) ≤ k; omega)
    (by show k < 0 + n; omega)
  refine ⟨rfl, ?_, a3, a2, ?_⟩
  · simpa [Team.statistics, Team.initialState] using a1
  · simpa [Team.statistics, Team.initialState] using a4

/-- Witness for C9 at `n = 3`, `k = 1`. -/
theorem grow_stops_at_exhaustion_witness :
    (Team.grow (fun i => decide (i < 1)) 3 Team.initialState).1 = none ∧
    (Team.statistics
      (Team.grow (fun i => decide (i < 1)) 3
        Team.initialState).2).idleWorkerCount = 1 ∧
    (Team.grow (fun i => decide (i < 1)) 3 Team.initialState).2.nextId = 1 ∧
    (Team.grow (fun i => decide (i < 1)) 3 Team.initialState).2.facCalls =
      1 + 1 ∧
    (Team.statistics
      (Team.grow (fun i => decide (i < 1)) 3
        Team.initialState).2).busyWorkerCount = 0 :=
  grow_stops_at_exhaustion 3 1 (by decide)

/-- C10: an explicit `shrink(n)` with `n` above the idle-plus-busy total
leaves `toShrink = n - |idle|`, which exceeds the busy count; while that
surplus persists, each worker created by a later `grow` is recycled straight
into the shrink branch — quit immediately — so the idle set does not grow. -/
theorem surplus_shrink_debt (s : TeamState) (n m : Nat) :
    (s.toShrink = 0 → s.idle.length + s.busyCount < n →
      (Team.quitIdlers (some n) s).toShrink = n - s.idle.length ∧
      s.busyCount < (Team.quitIdlers (some n) s).toShrink ∧
      (Team.quitIdlers (some n) s).idle = [] ∧
      (Team.quitIdlers (some n) s).workerQuits.length =
        s.workerQuits.length + s.idle.length) ∧
    (s.pending = [] → s.shouldQuitCoordinator = false → m ≤ s.toShrink →
      (∀ x ∈ s.idle, x < s.nextId) →
      (Team.createOneWorker (fun _ => true) m s).idle = s.idle ∧
      (Team.createOneWorker (fun _ => true) m s).toShrink = s.toShrink - m ∧
      (Team.createOneWorker (fun _ => true) m s).workerQuits.length =
        s.workerQuits.length + m) := by
  constructor
  · intro hts hlt
    obtain ⟨d1, d2, d3⟩ := Team.quitLoop_drain n s (by omega)
    rw [Team.quitIdlers_eq]
    have hqc : Team.quitCount (some n) s = n := rfl
    rw [hqc]
    dsimp only
    refine ⟨by rw [d2]; omega, by rw [d2]; omega, d1, by rw [d3]⟩
  · intro hp hq hle hb
    obtain ⟨e1, e2, e3, -⟩ := Team.createOneWorker_shrinkDebt m s hp hq hle hb
    exact ⟨e1, e2, e3⟩

/-- Witness for C10: shrink by 3 on a pool with one idle worker and nothing
busy leaves a surplus debt of 2; growing 2 on a pool with debt 2 quits both
new workers and leaves the idle set unchanged. -/
theorem surplus_shrink_debt_witness :
    ((Team.quitIdlers (some 3)
        { Team.initialState with idle := [0], nextId := 1 }).toShrink =
      3 - { Team.initialState with idle := [0], nextId := 1 }.idle.length ∧
     { Team.initialState with idle := [0], nextId := 1 }.busyCount <
      (Team.quitIdlers (some 3)
        { Team.initialState with idle := [0], nextId := 1 }).toShrink ∧
     (Team.quitIdlers (some 3)
        { Team.initialState with idle := [0], nextId := 1 }).idle = [] ∧
     (Team.quitIdlers (some 3)
        { Team.initialState with idle := [0], nextId := 1 }).workerQuits.length =
      { Team.initialState with idle := [0], nextId := 1 }.workerQuits.length +
        { Team.initialState with idle := [0], nextId := 1 }.idle.length) ∧
    ((Team.createOneWorker (fun _ => true) 2
        { Team.initialState with toShrink := 2 }).idle =
      { Team.initialState with toShrink := 2 }.idle ∧
     (Team.createOneWorker (fun _ => true) 2
        { Team.initialState with toShrink := 2 }).toShrink =
      { Team.initialState with toShrink := 2 }.toShrink - 2 ∧
     (Team.createOneWorker (fun _ => true) 2
        { Team.initialState with toShrink := 2 }).workerQuits.length =
      { Team.initialState with toShrink := 2 }.workerQuits.length + 2) :=
  ⟨(surplus_shrink_debt { Team.initialState with idle := [0], nextId := 1 }
      3 2).1 rfl (by decide),
   (surplus_shrink_debt { Team.initialState with toShrink := 2 } 3 2).2
     rfl rfl (by decide) (by simp [Team.initialState])⟩

/-- Witness for C6 at a reachable state with an actual quit event: grow one
worker, then shrink one. -/
theorem quit_only_from_idle_witness :
    (∀ e ∈ (Team.applyOp (fun _ => true) (Team.Op.shrinkC (some 1))
        (Team.applyOp (fun _ => true) (Team.Op.growC 1)
          Team.initialState)).workerQuits,
      e.wasIdle = true ∧ e.wasBusy = false) ∧
    (∀ (s2 : TeamState) (n : Nat), s2.idle = [] →
      Team.quitLoop (n + 1) s2 =
        Team.quitLoop n { s2 with toShrink := s2.toShrink + 1 }) :=
  quit_only_from_idle (fun _ => true) _
    (Team.Reachable.step (Team.Op.shrinkC (some 1))
      (Team.Reachable.step (Team.Op.growC 1) Team.Reachable.init trivial)
      trivial)
